import Mathlib

/-!
# sitediff: sitemap resolution and line-set diff

A shallow embedding of `sitemap/sitemap.go` (`Parse`, `ParseIndex`, `FetchAll`)
and of `sitediff.go` (`main`).

Everything outside the repository is an explicit parameter of the model:

* the network (`http.Get` followed by `ioutil.ReadAll` on the body),
* the two `xml.Unmarshal` decodings (into `urlset` and into `index`),
* the file system (`os.Open`) and the bytes a file delivers to its reader.

The two decodings are independent parameters; that the real ones fail on the
same payloads is the hypothesis `DecodersAgree`, stated where it is used.

The network and the file system are read as functions: asking twice gives the
same answer.  A Go byte sequence is a `String` with one character per byte; the
bytes `\n` and `\r` are the characters of the same name.

`log.Fatalf` ends the process; it is modelled as a separate outcome that no
caller can intercept.  Recursion in `FetchAll` is bounded by a fuel argument;
running out of fuel is `none` and stands for a call that has not returned.

The line scanner follows Go's `bufio`: `ScanLines` ends a line at a newline,
drops one carriage return in front of it, delivers a last line without newline,
and gives up on a line that does not fit `MaxScanTokenSize`.
-/

namespace Sitediff

/-- A Go `error` value, identified with its message. -/
abbrev GoError := String

/-- A byte sequence, one character per byte. -/
abbrev Bytes := String

/-- An `io.Reader` as seen by `ioutil.ReadAll`: all the bytes, or a read error. -/
abbrev Reader := Except GoError Bytes

/-- The reader `bytes.NewReader(data)`: reading it never fails. -/
def bytesNewReader (data : Bytes) : Reader := .ok data

/-- The world outside the sitemap package. -/
structure Net where
  /-- Result of `http.Get(url)`: a transport error, or the response body. -/
  httpGet : String → Except GoError Reader
  /-- Result of `xml.Unmarshal(data, &urlset{})`: an error, or the `url>loc` entries. -/
  unmarshalUrlset : Bytes → Except GoError (List String)
  /-- Result of `xml.Unmarshal(data, &index{})`: an error, or the `sitemap>loc` entries. -/
  unmarshalIndex : Bytes → Except GoError (List String)

/-- `Parse` (sitemap.go 34-48).  Every error return of the source is
`return nil, err`, so the pair `([]string, error)` is an `Except`. -/
def Parse (w : Net) (inp : Reader) : Except GoError (List String) :=
  match inp with
  | .error err => .error ("Parse couldn't read sitemap data: " ++ err)
  | .ok data =>
    match w.unmarshalUrlset data with
    | .error err => .error ("Parse failed to unmarshal sitemap data: " ++ err)
    | .ok urls => .ok urls

/-- `ParseIndex` (sitemap.go 52-66). -/
def ParseIndex (w : Net) (inp : Reader) : Except GoError (List String) :=
  match inp with
  | .error err => .error err
  | .ok data =>
    match w.unmarshalIndex data with
    | .error err => .error err
    | .ok sitemaps => .ok sitemaps

/-- `Fetch` (sitemap.go 70-83): `Parse` on the body of the response. -/
def Fetch (w : Net) (url : String) : Except GoError (List String) :=
  match w.httpGet url with
  | .error err => .error err
  | .ok body =>
    match Parse w body with
    | .error err => .error err
    | .ok urls => .ok urls

/-- `FetchIndex` (sitemap.go 87-99): `ParseIndex` on the body of the response. -/
def FetchIndex (w : Net) (url : String) : Except GoError (List String) :=
  match w.httpGet url with
  | .error err => .error err
  | .ok body =>
    match ParseIndex w body with
    | .error err => .error err
    | .ok sitemaps => .ok sitemaps

/-- Equality of Go results is decidable when it is on both components. -/
instance instDecEqExcept {ε α : Type} [DecidableEq ε] [DecidableEq α] :
    DecidableEq (Except ε α)
  | .ok a, .ok b => if h : a = b then isTrue (by rw [h]) else isFalse (by intro h2; cases h2; exact h rfl)
  | .error a, .error b =>
    if h : a = b then isTrue (by rw [h]) else isFalse (by intro h2; cases h2; exact h rfl)
  | .ok _, .error _ => isFalse (by intro h; cases h)
  | .error _, .ok _ => isFalse (by intro h; cases h)

/-- Observable steps of `FetchAll`, in the order they happen. -/
inductive Event where
  /-- `http.Get(url)` was issued. -/
  | get (url : String)
  /-- `Parse` was run on the payload. -/
  | parse (data : Bytes)
  /-- `ParseIndex` was run on the payload. -/
  | parseIndex (data : Bytes)
  deriving DecidableEq, Repr

/-- How a call of `FetchAll` ends. -/
inductive Outcome where
  /-- The call returned `(urls, nil)` or `(nil, err)`. -/
  | returned (r : Except GoError (List String))
  /-- The call reached `log.Fatalf(msg)`: the process is gone. -/
  | exited (msg : String)
  deriving DecidableEq, Repr

/-- A finished call: the steps taken and how it ended. -/
abbrev Run := List Event × Outcome

/-- Put events in front of a run. -/
def Run.after (pre : List Event) (r : Option Run) : Option Run :=
  r.map (fun p => (pre ++ p.1, p.2))

/-- The loop `for _, s := range sitemaps` of `FetchAll` (sitemap.go 135-143),
with `call` the recursive call and `urls` the slice accumulated so far. -/
def fetchLoop (call : String → Option Run) : List String → List String → Option Run
  | [], urls => some ([], .returned (.ok urls))
  | s :: rest, urls =>
    match call s with
    | none => none
    | some (tr, .exited msg) => some (tr, .exited msg)
    | some (tr, .returned (.error err)) => some (tr, .returned (.error err))
    | some (tr, .returned (.ok newurls)) =>
      Run.after tr (fetchLoop call rest (urls ++ newurls))

/-- `FetchAll` (sitemap.go 105-144). -/
def FetchAll (w : Net) : Nat → String → Option Run
  | 0, _ => none
  | fuel + 1, url =>
    match w.httpGet url with
    | .error err =>
      some ([.get url], .exited ("error retrieving sitemap " ++ url ++ ": " ++ err))
    | .ok body =>
      match body with
      | .error err =>
        some ([.get url], .exited ("error reading content of sitemap " ++ url ++ ": " ++ err))
      | .ok data =>
        match Parse w (bytesNewReader data) with
        | .error err => some ([.get url, .parse data], .returned (.error err))
        | .ok urls =>
          if urls.length > 0 then
            some ([.get url, .parse data], .returned (.ok urls))
          else
            match ParseIndex w (bytesNewReader data) with
            | .error err =>
              some ([.get url, .parse data, .parseIndex data], .returned (.error err))
            | .ok sitemaps =>
              Run.after [.get url, .parse data, .parseIndex data]
                (fetchLoop (FetchAll w fuel) sitemaps urls)

/-- `FetchAll(url)` ends with run `r`: some amount of fuel reaches it. -/
def Ends (w : Net) (url : String) (r : Run) : Prop :=
  ∃ fuel, FetchAll w fuel url = some r

/-- `FetchAll(url)` returns `(urls, nil)`. -/
def Returns (w : Net) (url : String) (urls : List String) : Prop :=
  ∃ tr, Ends w url (tr, .returned (.ok urls))

/-- `FetchAll(url)` returns `(nil, err)`. -/
def Fails (w : Net) (url : String) (err : GoError) : Prop :=
  ∃ tr, Ends w url (tr, .returned (.error err))

/-- `FetchAll(url)` ends the process with `log.Fatalf(msg)`. -/
def Exits (w : Net) (url : String) (msg : String) : Prop :=
  ∃ tr, Ends w url (tr, .exited msg)

/-- The URLs requested during a run, in order. -/
def fetched (tr : List Event) : List String :=
  tr.filterMap (fun e => match e with
    | .get u => some u
    | _ => none)

/-- A transport failure at `url`: `http.Get` fails or the body cannot be read. -/
def TransportFails (w : Net) (url : String) : Prop :=
  (∃ err, w.httpGet url = .error err) ∨ (∃ err, w.httpGet url = .ok (.error err))

/-- A run ends in `log.Fatalf` exactly when one of its fetches met a transport failure. -/
def FatalIffTransport (w : Net) (r : Run) : Prop :=
  (∃ msg, r.2 = .exited msg) ↔ ∃ u, u ∈ fetched r.1 ∧ TransportFails w u

/-- An example network.  `root` is an index naming the flat sitemap `s1`;
`mixed` has both a URL entry and a nested reference; `empty` has neither;
any other URL cannot be reached. -/
def exampleNet : Net where
  httpGet := fun u =>
    if u = "root" then .ok (.ok "I")
    else if u = "s1" then .ok (.ok "F")
    else if u = "mixed" then .ok (.ok "M")
    else if u = "empty" then .ok (.ok "E")
    else .error "no route"
  unmarshalUrlset := fun d =>
    if d = "F" then .ok ["/x", "/y"] else if d = "M" then .ok ["/a"] else .ok []
  unmarshalIndex := fun d =>
    if d = "I" then .ok ["s1"] else if d = "M" then .ok ["s1"] else .ok []

/-- A network whose index at `root` names `s1`, which cannot be reached. -/
def deadLinkNet : Net where
  httpGet := fun u => if u = "root" then .ok (.ok "I") else .error "connection refused"
  unmarshalUrlset := fun _ => .ok []
  unmarshalIndex := fun d => if d = "I" then .ok ["s1"] else .ok []

/-- A network whose index at `a` names `a` again. -/
def cycleNet : Net where
  httpGet := fun _ => .ok (.ok "I")
  unmarshalUrlset := fun _ => .ok []
  unmarshalIndex := fun _ => .ok ["a"]

/-- The error `xml.Unmarshal` gives on a document that ends inside its root element. -/
def unexpectedEOF : GoError := "XML syntax error on line 1: unexpected EOF"

/-- A flat sitemap with the one entry `/x`. -/
def okXml : Bytes := "<urlset><url><loc>/x</loc></url></urlset>"

/-- A document cut off after its opening tag. -/
def badXml : Bytes := "<urlset>"

/-- An index naming `ok`, `bad` and `dead`, in this order. -/
def idx1Xml : Bytes :=
  "<sitemapindex><sitemap><loc>ok</loc></sitemap><sitemap><loc>bad</loc></sitemap>" ++
    "<sitemap><loc>dead</loc></sitemap></sitemapindex>"

/-- An index naming `dead` and `bad`, in this order. -/
def idx2Xml : Bytes :=
  "<sitemapindex><sitemap><loc>dead</loc></sitemap><sitemap><loc>bad</loc></sitemap>" ++
    "</sitemapindex>"

/-- A network serving `okXml` at `ok`, `badXml` at `bad`, `idx1Xml` at `idx1` and
`idx2Xml` at `idx2`; no other URL can be reached.  The decoders give what
`xml.Unmarshal` gives on the three well-formed payloads, and the error of the
truncated payload on everything else. -/
def siteNet : Net where
  httpGet := fun u =>
    if u = "ok" then .ok (.ok okXml)
    else if u = "bad" then .ok (.ok badXml)
    else if u = "idx1" then .ok (.ok idx1Xml)
    else if u = "idx2" then .ok (.ok idx2Xml)
    else .error "connection refused"
  unmarshalUrlset := fun d =>
    if d = okXml then .ok ["/x"]
    else if d = idx1Xml then .ok []
    else if d = idx2Xml then .ok []
    else .error unexpectedEOF
  unmarshalIndex := fun d =>
    if d = okXml then .ok []
    else if d = idx1Xml then .ok ["ok", "bad", "dead"]
    else if d = idx2Xml then .ok ["dead", "bad"]
    else .error unexpectedEOF

/-! ## Trees of sitemap indexes -/

/-- A finite tree of sitemap documents: a flat sitemap with its URL entries, or
an index with, for each nested reference, its URL and the document found there. -/
inductive SiteTree where
  | leaf (urls : List String)
  | index (children : List (String × SiteTree))

mutual
/-- The leaf URLs of a tree, left to right, depth first. -/
def SiteTree.leaves : SiteTree → List String
  | .leaf urls => urls
  | .index cs => leavesList cs
/-- The leaf URLs of a list of children, in order. -/
def leavesList : List (String × SiteTree) → List String
  | [] => []
  | (_, t) :: rest => t.leaves ++ leavesList rest
end

mutual
/-- Nesting depth of a tree: a flat sitemap has depth 0. -/
def SiteTree.depth : SiteTree → Nat
  | .leaf _ => 0
  | .index cs => depthList cs + 1
/-- The largest depth among a list of children. -/
def depthList : List (String × SiteTree) → Nat
  | [] => 0
  | (_, t) :: rest => max t.depth (depthList rest)
end

mutual
/-- The network serves tree `t` at `url`: every fetch and decode on the way
succeeds, a flat sitemap has at least one entry, and an index payload has no
flat entries and names exactly the children of the tree. -/
def Serves (w : Net) : String → SiteTree → Prop
  | url, .leaf urls =>
    ∃ data, w.httpGet url = .ok (.ok data) ∧ w.unmarshalUrlset data = .ok urls ∧
      0 < urls.length
  | url, .index cs =>
    ∃ data, w.httpGet url = .ok (.ok data) ∧ w.unmarshalUrlset data = .ok [] ∧
      w.unmarshalIndex data = .ok (cs.map Prod.fst) ∧ ServesAll w cs
/-- Every child is served at its URL. -/
def ServesAll (w : Net) : List (String × SiteTree) → Prop
  | [] => True
  | (s, t) :: rest => Serves w s t ∧ ServesAll w rest
end

/-! ## The diff command -/

/-- Go's `bufio.MaxScanTokenSize`: the scanner's buffer never grows past it. -/
def maxScanTokenSize : Nat := 64 * 1024

/-- Go's `dropCR` (bufio/scan.go): drop one trailing carriage return. -/
def dropCR (data : List Char) : List Char :=
  if data.getLast? = some '\r' then data.dropLast else data

/-- The tokens a `bufio.Scanner` with the default split function `ScanLines`
yields over the bytes still to come, given the bytes `cur` of the line in
progress.  A newline ends the line and `dropCR` of it is the token; at the end
of the input a line in progress is delivered the same way; a line whose first
`maxTok` bytes hold no newline fills the buffer and stops the scanner
(`ErrTooLong`, the flag of the result) after the tokens before it. -/
def scanFrom (maxTok : Nat) : List Char → List Char → List String × Bool
  | [], cur => (if cur = [] then [] else [String.mk (dropCR cur)], false)
  | c :: cs, cur =>
    if c = '\n' then
      (String.mk (dropCR cur) :: (scanFrom maxTok cs []).1, (scanFrom maxTok cs []).2)
    else if maxTok ≤ cur.length + 1 then ([], true)
    else scanFrom maxTok cs (cur ++ [c])

/-- An open file as its reader sees it: the bytes delivered (one character per
byte), and the read error that ended the reading, if it was not the end of the
file. -/
structure File where
  data : String
  readErr : Option GoError
  deriving DecidableEq, Repr

/-- The successive values of `scanner.Text()` while `scanner.Scan()` is true.
After a read error the scanner still delivers what it holds, as at end of file. -/
def scanLines (f : File) : List String :=
  (scanFrom maxScanTokenSize f.data.data []).1

/-- The value `scanner.Err()` would have after the loop. -/
def scanErr (f : File) : Option GoError :=
  if (scanFrom maxScanTokenSize f.data.data []).2 then some "bufio.Scanner: token too long"
  else f.readErr

/-- A Go `map[string]bool`: a missing key reads as `false`. -/
abbrev LineSet := String → Bool

/-- The map `make(map[string]bool)`. -/
def LineSet.empty : LineSet := fun _ => false

/-- The assignment `m[k] = true`. -/
def LineSet.setTrue (m : LineSet) (k : String) : LineSet :=
  fun x => if x = k then true else m x

/-- The loop `for oldscan.Scan() { oldlines[oldscan.Text()] = true }`
(sitediff.go 47-49), started from map `m`. -/
def collectOld (m : LineSet) : List String → LineSet
  | [] => m
  | t :: ts => collectOld (m.setTrue t) ts

/-- The loop over the new lines (sitediff.go 58-62): what `fmt.Println` writes. -/
def printNew (oldlines : LineSet) : List String → List String
  | [] => []
  | t :: ts =>
    if oldlines t == false then t :: printNew oldlines ts else printNew oldlines ts

/-- The diff of two line sequences as the command computes it. -/
def Diff (old new : List String) : List String :=
  printNew (collectOld LineSet.empty old) new

/-- The machine the command runs on: the network and the file system. -/
structure World where
  net : Net
  /-- Result of `os.Open(path)`. -/
  osOpen : String → Except GoError File

/-- How the process ends: the lines written to standard output, and the
message of `log.Fatalf` when it ended that way (exit status 1). -/
structure Process where
  stdout : List String
  fatal : Option String
  deriving DecidableEq, Repr

/-- The lines `usage()` prints (sitediff.go 12-16). -/
def usage : List String :=
  ["Usage:", "\tsitediff get <url>", "\tsitediff diff <old> <new>"]

/-- `main` (sitediff.go 18-69) on the argument vector `args` (`os.Args`).
`none` means that `FetchAll` has not returned within `fuel` nested calls. -/
def main (w : World) (fuel : Nat) (args : List String) : Option Process :=
  if args.length < 2 then some ⟨usage, none⟩
  else if args.getD 1 "" = "get" ∧ args.length = 3 then
    match FetchAll w.net fuel (args.getD 2 "") with
    | none => none
    | some (_, .exited msg) => some ⟨[], some msg⟩
    | some (_, .returned (.error err)) => some ⟨[], some ("failed to fetch: " ++ err)⟩
    | some (_, .returned (.ok urls)) => some ⟨urls, none⟩
  else if args.getD 1 "" = "diff" ∧ args.length = 4 then
    match w.osOpen (args.getD 2 "") with
    | .error err => some ⟨[], some ("error opening old: " ++ err)⟩
    | .ok oldfile =>
      let oldlines := collectOld LineSet.empty (scanLines oldfile)
      match w.osOpen (args.getD 3 "") with
      | .error err => some ⟨[], some ("error opening old: " ++ err)⟩
      | .ok newfile => some ⟨printNew oldlines (scanLines newfile), none⟩
  else some ⟨usage, none⟩

/-- The token the scanner makes of a line of text: one trailing carriage return
is dropped. -/
def lineToken (l : String) : String := String.mk (dropCR l.data)

/-- The newline-delimited lines of the bytes still to come, given the bytes
`cur` of the line in progress: a newline ends a line, and a last line without
newline counts when it is not empty. -/
def splitFrom : List Char → List Char → List String
  | [], cur => if cur = [] then [] else [String.mk cur]
  | c :: cs, cur =>
    if c = '\n' then String.mk cur :: splitFrom cs [] else splitFrom cs (cur ++ [c])

/-- The newline-delimited lines of a text, each without its newline. -/
def textLines (data : String) : List String := splitFrom data.data []

/-- Every newline-delimited line of the file fits the scanner's buffer. -/
def ShortLines (f : File) : Prop := ∀ l ∈ textLines f.data, l.length < maxScanTokenSize

/-- Whether the lines of a file are short can be computed. -/
instance instDecidableShortLines (f : File) : Decidable (ShortLines f) := by
  unfold ShortLines
  exact inferInstance

/-- The text made of the given lines, each ended by a newline. -/
def unlines : List String → List Char
  | [] => []
  | l :: ls => l.data ++ '\n' :: unlines ls

/-- A line of text the scanner can take in one piece: it has no newline inside
and fits the buffer. -/
def Scannable (l : String) : Prop := '\n' ∉ l.data ∧ l.data.length < maxScanTokenSize

/-- The file system used in the examples. -/
def notFound (p : String) : Except GoError File :=
  .error ("open " ++ p ++ ": no such file or directory")

/-- A machine on which reading `old.txt` breaks off after its first line `/a`
(the rest of the file is never delivered), while `new.txt` holds `/a` and `/b`. -/
def truncatedOldWorld : World where
  net := exampleNet
  osOpen := fun p =>
    if p = "old.txt" then .ok ⟨"/a\n", some "read old.txt: input/output error"⟩
    else if p = "new.txt" then .ok ⟨"/a\n/b\n", none⟩
    else notFound p

/-- A machine whose `old.txt` holds the line `/a` and whose `new.txt` holds the
same line ended by carriage return and newline, then `/A`, then `/a` followed by
a blank. -/
def crlfWorld : World where
  net := exampleNet
  osOpen := fun p =>
    if p = "old.txt" then .ok ⟨"/a\n", none⟩
    else if p = "new.txt" then .ok ⟨"/a\r\n/A\n/a \n", none⟩
    else notFound p

/-! ## Fuel -/

theorem Run.after_some (pre : List Event) (tr : List Event) (o : Outcome) :
    Run.after pre (some (tr, o)) = some (pre ++ tr, o) := rfl

theorem Run.after_eq_some {pre : List Event} {r : Option Run} {tr : List Event} {o : Outcome}
    (h : Run.after pre r = some (tr, o)) : ∃ tr2, r = some (tr2, o) ∧ tr = pre ++ tr2 := by
  cases r with
  | none => simp [Run.after] at h
  | some p =>
    obtain ⟨t, o2⟩ := p
    simp only [Run.after, Option.map_some', Option.some.injEq, Prod.mk.injEq] at h
    exact ⟨t, by rw [h.2], h.1.symm⟩

/-- The loop only gains from a recursive call that returns more often. -/
theorem fetchLoop_mono {call call2 : String → Option Run}
    (hc : ∀ s r, call s = some r → call2 s = some r) :
    ∀ (l : List String) (acc : List String) (r : Run),
      fetchLoop call l acc = some r → fetchLoop call2 l acc = some r := by
  intro l
  induction l with
  | nil => intro acc r h; simpa [fetchLoop] using h
  | cons s rest ih =>
    intro acc r h
    unfold fetchLoop at h ⊢
    cases hs : call s with
    | none => simp [hs] at h
    | some p =>
      rw [hc s p hs]
      rw [hs] at h
      obtain ⟨tr, o⟩ := p
      cases o with
      | exited msg => simpa using h
      | returned res =>
        cases res with
        | error e => simpa using h
        | ok newurls =>
          simp only at h ⊢
          obtain ⟨tr0, o0⟩ := r
          obtain ⟨tr2, h2, h3⟩ := Run.after_eq_some h
          rw [ih _ _ h2, h3]; rfl

/-- One more unit of fuel never changes a finished call. -/
theorem FetchAll_succ (w : Net) :
    ∀ (fuel : Nat) (url : String) (r : Run),
      FetchAll w fuel url = some r → FetchAll w (fuel + 1) url = some r := by
  intro fuel
  induction fuel with
  | zero => intro url r h; simp [FetchAll] at h
  | succ n ih =>
    intro url r h
    unfold FetchAll at h ⊢
    cases hg : w.httpGet url with
    | error e => rw [hg] at h; simpa using h
    | ok body =>
      rw [hg] at h
      cases body with
      | error e => simpa using h
      | ok data =>
        simp only at h ⊢
        cases hp : Parse w (bytesNewReader data) with
        | error e => rw [hp] at h; simpa using h
        | ok urls =>
          rw [hp] at h
          simp only at h ⊢
          by_cases hl : urls.length > 0
          · simpa [hl] using h
          · simp only [hl, ite_false] at h ⊢
            cases hi : ParseIndex w (bytesNewReader data) with
            | error e => rw [hi] at h; simpa using h
            | ok sitemaps =>
              rw [hi] at h
              simp only at h ⊢
              obtain ⟨tr0, o0⟩ := r
              obtain ⟨tr2, h2, h3⟩ := Run.after_eq_some h
              rw [fetchLoop_mono (ih) sitemaps urls _ h2, h3]; rfl

/-- More fuel never changes a finished call. -/
theorem FetchAll_mono (w : Net) {n m : Nat} (hnm : n ≤ m) {url : String} {r : Run}
    (h : FetchAll w n url = some r) : FetchAll w m url = some r := by
  induction hnm with
  | refl => exact h
  | step _ ih => exact FetchAll_succ w _ _ _ ih

/-- A call ends in at most one way. -/
theorem Ends_unique {w : Net} {url : String} {r1 r2 : Run}
    (h1 : Ends w url r1) (h2 : Ends w url r2) : r1 = r2 := by
  obtain ⟨n, hn⟩ := h1
  obtain ⟨m, hm⟩ := h2
  have a := FetchAll_mono w (Nat.le_max_left n m) hn
  have b := FetchAll_mono w (Nat.le_max_right n m) hm
  rw [a] at b
  exact Option.some.inj b

/-! ## The loop over nested references -/

/-- The equation of `FetchAll` on a payload it treats as an index. -/
theorem FetchAll_index {w : Net} {url : String} {data : Bytes} {sitemaps : List String}
    (hget : w.httpGet url = .ok (.ok data)) (hflat : w.unmarshalUrlset data = .ok [])
    (hidx : w.unmarshalIndex data = .ok sitemaps) (fuel : Nat) :
    FetchAll w (fuel + 1) url =
      Run.after [.get url, .parse data, .parseIndex data]
        (fetchLoop (FetchAll w fuel) sitemaps []) := by
  simp [FetchAll, hget, Parse, ParseIndex, bytesNewReader, hflat, hidx]

/-- The loop over references that all return: the results are appended in order. -/
theorem fetchLoop_ok {call : String → Option Run} :
    ∀ (l : List String) (rs : List (List String)),
      List.Forall₂ (fun s r => ∃ tr, call s = some (tr, .returned (.ok r))) l rs →
      ∀ acc, ∃ tr, fetchLoop call l acc = some (tr, .returned (.ok (acc ++ rs.flatten))) := by
  intro l rs h
  induction h with
  | nil => intro acc; exact ⟨[], by simp [fetchLoop]⟩
  | @cons s r l rs hs _ ih =>
    intro acc
    obtain ⟨tr, hs⟩ := hs
    obtain ⟨tr2, h2⟩ := ih (acc ++ r)
    refine ⟨tr ++ tr2, ?_⟩
    simp [fetchLoop, hs, h2, Run.after]

/-- The loop stops at the first reference that does not return URLs, and ends
the way that call ended. -/
theorem fetchLoop_stop {call : String → Option Run} {s : String} {tr : List Event}
    {o : Outcome} (post : List String) (hs : call s = some (tr, o))
    (ho : ∀ urls, o ≠ .returned (.ok urls)) :
    ∀ (pre : List String) (rs : List (List String)),
      List.Forall₂ (fun s r => ∃ tr, call s = some (tr, .returned (.ok r))) pre rs →
      ∀ acc, ∃ tr2, fetchLoop call (pre ++ s :: post) acc = some (tr2, o) := by
  intro pre rs h
  induction h with
  | nil =>
    intro acc
    refine ⟨tr, ?_⟩
    cases o with
    | exited msg => simp [fetchLoop, hs]
    | returned res =>
      cases res with
      | error e => simp [fetchLoop, hs]
      | ok urls => exact absurd rfl (ho urls)
  | @cons s1 r1 l rs hs1 _ ih =>
    intro acc
    obtain ⟨tr1, hs1⟩ := hs1
    obtain ⟨tr2, h2⟩ := ih (acc ++ r1)
    refine ⟨tr1 ++ tr2, ?_⟩
    simp [fetchLoop, hs1, h2, Run.after]

/-- References that all return do so with one common amount of fuel. -/
theorem common_fuel {w : Net} :
    ∀ (l : List String) (rs : List (List String)), List.Forall₂ (Returns w) l rs →
      ∃ n, List.Forall₂ (fun s r => ∃ tr, FetchAll w n s = some (tr, .returned (.ok r))) l rs := by
  intro l rs h
  induction h with
  | nil => exact ⟨0, List.Forall₂.nil⟩
  | cons hs _ ih =>
    obtain ⟨tr, n, hn⟩ := hs
    obtain ⟨m, hm⟩ := ih
    refine ⟨max n m, List.Forall₂.cons ⟨tr, FetchAll_mono w (Nat.le_max_left n m) hn⟩ ?_⟩
    refine List.Forall₂.imp ?_ hm
    intro s r ⟨tr2, h2⟩
    exact ⟨tr2, FetchAll_mono w (Nat.le_max_right n m) h2⟩

/-! ## Transport failures -/

theorem fetched_append (a b : List Event) : fetched (a ++ b) = fetched a ++ fetched b := by
  simp [fetched, List.filterMap_append]

theorem fetchLoop_fatal {w : Net} {call : String → Option Run}
    (hc : ∀ s r, call s = some r → FatalIffTransport w r) :
    ∀ (l : List String) (acc : List String) (r : Run),
      fetchLoop call l acc = some r → FatalIffTransport w r := by
  intro l
  induction l with
  | nil =>
    intro acc r h
    simp only [fetchLoop, Option.some.injEq] at h
    subst h
    simp [FatalIffTransport, fetched]
  | cons s rest ih =>
    intro acc r h
    unfold fetchLoop at h
    cases hs : call s with
    | none => simp [hs] at h
    | some p =>
      rw [hs] at h
      have hp := hc s p hs
      obtain ⟨tr, o⟩ := p
      cases o with
      | exited msg =>
        simp only [Option.some.injEq] at h
        subst h; exact hp
      | returned res =>
        cases res with
        | error e =>
          simp only [Option.some.injEq] at h
          subst h; exact hp
        | ok newurls =>
          simp only at h
          obtain ⟨tr0, o0⟩ := r
          obtain ⟨tr2, h2, h3⟩ := Run.after_eq_some h
          have h4 := ih _ _ h2
          have hno : ¬ ∃ u, u ∈ fetched tr ∧ TransportFails w u := by
            intro hex
            obtain ⟨m, hm⟩ := hp.2 hex
            cases hm
          subst h3
          simp only [FatalIffTransport, fetched_append, List.mem_append] at h4 ⊢
          rw [h4]
          constructor
          · rintro ⟨u, hu, ht⟩; exact ⟨u, Or.inr hu, ht⟩
          · rintro ⟨u, hu | hu, ht⟩
            · exact absurd ⟨u, hu, ht⟩ hno
            · exact ⟨u, hu, ht⟩

theorem FetchAll_fatal (w : Net) :
    ∀ (fuel : Nat) (url : String) (r : Run),
      FetchAll w fuel url = some r → FatalIffTransport w r := by
  intro fuel
  induction fuel with
  | zero => intro url r h; simp [FetchAll] at h
  | succ n ih =>
    intro url r h
    unfold FetchAll at h
    cases hg : w.httpGet url with
    | error e =>
      rw [hg] at h
      simp only [Option.some.injEq] at h
      subst h
      simp only [FatalIffTransport, fetched, TransportFails]
      exact ⟨fun _ => ⟨url, by simp, Or.inl ⟨e, hg⟩⟩, fun _ => ⟨_, rfl⟩⟩
    | ok body =>
      rw [hg] at h
      cases body with
      | error e =>
        simp only [Option.some.injEq] at h
        subst h
        simp only [FatalIffTransport, fetched, TransportFails]
        exact ⟨fun _ => ⟨url, by simp, Or.inr ⟨e, hg⟩⟩, fun _ => ⟨_, rfl⟩⟩
      | ok data =>
        have hself : ¬ TransportFails w url := by
          rintro (⟨e, he⟩ | ⟨e, he⟩) <;> rw [hg] at he <;> cases he
        have hbase : ∀ (tr : List Event) (res : Except GoError (List String)),
            fetched tr = [url] → FatalIffTransport w (tr, .returned res) := by
          intro tr res htr
          simp only [FatalIffTransport, htr, List.mem_singleton]
          constructor
          · rintro ⟨m, hm⟩; cases hm
          · rintro ⟨u, rfl, ht⟩; exact absurd ht hself
        simp only at h
        cases hp : Parse w (bytesNewReader data) with
        | error e =>
          rw [hp] at h
          simp only [Option.some.injEq] at h
          subst h
          exact hbase _ _ (by simp [fetched])
        | ok urls =>
          rw [hp] at h
          simp only at h
          by_cases hl : urls.length > 0
          · simp only [hl, ite_true, Option.some.injEq] at h
            subst h
            exact hbase _ _ (by simp [fetched])
          · simp only [hl, ite_false] at h
            cases hi : ParseIndex w (bytesNewReader data) with
            | error e =>
              rw [hi] at h
              simp only [Option.some.injEq] at h
              subst h
              exact hbase _ _ (by simp [fetched])
            | ok sitemaps =>
              rw [hi] at h
              simp only at h
              obtain ⟨tr0, o0⟩ := r
              obtain ⟨tr2, h2, h3⟩ := Run.after_eq_some h
              have h4 := fetchLoop_fatal ih sitemaps urls _ h2
              subst h3
              simp only [FatalIffTransport, fetched_append, List.mem_append] at h4 ⊢
              rw [h4]
              have hf : fetched [Event.get url, Event.parse data, Event.parseIndex data] = [url] := by
                simp [fetched]
              rw [hf]
              constructor
              · rintro ⟨u, hu, ht⟩; exact ⟨u, Or.inr hu, ht⟩
              · rintro ⟨u, hu | hu, ht⟩
                · rw [List.mem_singleton] at hu; subst hu; exact absurd ht hself
                · exact ⟨u, hu, ht⟩

/-! ## Resolution of trees -/

/-- Children served by the network are resolved by the loop, given fuel for the
deepest of them, provided each child is resolved by the recursive call. -/
theorem fetchLoop_serves {w : Net} {fuel : Nat}
    (ih : ∀ (t : SiteTree) (url : String), Serves w url t → t.depth < fuel →
      ∃ tr, FetchAll w fuel url = some (tr, .returned (.ok t.leaves))) :
    ∀ (cs : List (String × SiteTree)), ServesAll w cs → depthList cs < fuel →
      ∀ acc, ∃ tr, fetchLoop (FetchAll w fuel) (cs.map Prod.fst) acc =
        some (tr, .returned (.ok (acc ++ leavesList cs))) := by
  intro cs
  induction cs with
  | nil => intro _ _ acc; exact ⟨[], by simp [fetchLoop, leavesList]⟩
  | cons c rest ihl =>
    intro hs hd acc
    obtain ⟨s, t⟩ := c
    simp only [ServesAll] at hs
    simp only [depthList] at hd
    obtain ⟨tr, ht⟩ := ih t s hs.1 (lt_of_le_of_lt (le_max_left _ _) hd)
    obtain ⟨tr2, h2⟩ := ihl hs.2 (lt_of_le_of_lt (le_max_right _ _) hd) (acc ++ t.leaves)
    refine ⟨tr ++ tr2, ?_⟩
    simp [fetchLoop, ht, h2, Run.after, leavesList]

/-- A served tree is resolved to its leaves by any fuel above its depth. -/
theorem FetchAll_serves (w : Net) :
    ∀ (fuel : Nat) (t : SiteTree) (url : String), Serves w url t → t.depth < fuel →
      ∃ tr, FetchAll w fuel url = some (tr, .returned (.ok t.leaves)) := by
  intro fuel
  induction fuel with
  | zero => intro t url _ h; exact absurd h (Nat.not_lt_zero _)
  | succ n ih =>
    intro t url hs hd
    cases t with
    | leaf urls =>
      simp only [Serves] at hs
      obtain ⟨data, hget, hflat, hlen⟩ := hs
      refine ⟨[.get url, .parse data], ?_⟩
      simp [FetchAll, hget, Parse, bytesNewReader, hflat, hlen, SiteTree.leaves]
    | index cs =>
      simp only [Serves] at hs
      obtain ⟨data, hget, hflat, hidx, hall⟩ := hs
      simp only [SiteTree.depth, Nat.add_lt_add_iff_right] at hd
      obtain ⟨tr, ht⟩ := fetchLoop_serves ih cs hall hd []
      refine ⟨[.get url, .parse data, .parseIndex data] ++ tr, ?_⟩
      rw [FetchAll_index hget hflat hidx, ht, Run.after_some]
      simp [SiteTree.leaves]

/-- Without the tree there is no bound: on an index that names itself no amount
of fuel lets `FetchAll` return. -/
theorem FetchAll_cycle_never_returns : ∀ fuel, FetchAll cycleNet fuel "a" = none := by
  intro fuel
  induction fuel with
  | zero => rfl
  | succ n ih =>
    rw [@FetchAll_index cycleNet "a" "I" ["a"] rfl rfl rfl n]
    simp [fetchLoop, ih, Run.after]

/-! ## Errors of references and agreeing decoders -/

/-- The loop ends the way its first reference that does not return URLs ends,
once `FetchAll` is given fuel for the references up to it. -/
theorem FetchAll_index_stop {w : Net} {url : String} {data : Bytes}
    {pre post : List String} {s : String} {results : List (List String)}
    (hget : w.httpGet url = .ok (.ok data)) (hflat : w.unmarshalUrlset data = .ok [])
    (hidx : w.unmarshalIndex data = .ok (pre ++ s :: post))
    (h : List.Forall₂ (Returns w) pre results) {tr : List Event} {o : Outcome}
    (hs : Ends w s (tr, o)) (ho : ∀ urls, o ≠ .returned (.ok urls)) :
    ∃ tr2, Ends w url (tr2, o) := by
  obtain ⟨n, hn⟩ := common_fuel _ _ h
  obtain ⟨m, hm⟩ := hs
  have hn2 := List.Forall₂.imp
    (fun s r (hx : ∃ tr, FetchAll w n s = some (tr, .returned (.ok r))) =>
      (⟨hx.choose, FetchAll_mono w (Nat.le_max_left n m) hx.choose_spec⟩ :
        ∃ tr, FetchAll w (max n m) s = some (tr, .returned (.ok r)))) hn
  have hm2 := FetchAll_mono w (Nat.le_max_right n m) hm
  obtain ⟨tr2, ht⟩ := fetchLoop_stop post hm2 ho _ _ hn2 []
  refine ⟨[.get url, .parse data, .parseIndex data] ++ tr2, max n m + 1, ?_⟩
  rw [FetchAll_index hget hflat hidx, ht, Run.after_some]

/-- C1, as the claim states it, fails: the index at `idx2` names `dead`, whose
fetch meets a transport failure, and then `bad`, on which `FetchAll` returns a
decode error.  `FetchAll("idx2")` does not fail with the error of a reference:
it returns nothing, the process ends in `log.Fatalf` at `dead`. -/
theorem dead_reference_exits_not_fails :
    siteNet.unmarshalUrlset idx2Xml = .ok [] ∧
    siteNet.unmarshalIndex idx2Xml = .ok ["dead", "bad"] ∧
    siteNet.httpGet "dead" = .error "connection refused" ∧
    Fails siteNet "bad" ("Parse failed to unmarshal sitemap data: " ++ unexpectedEOF) ∧
    FetchAll siteNet 2 "idx2" =
      some ([.get "idx2", .parse idx2Xml, .parseIndex idx2Xml, .get "dead"],
        .exited "error retrieving sitemap dead: connection refused") ∧
    ¬ ∃ err, Fails siteNet "idx2" err := by
  refine ⟨by decide, by decide, by decide, ⟨[.get "bad", .parse badXml], 1, by decide⟩,
    by decide, ?_⟩
  rintro ⟨err, tr, hend⟩
  have h2 : Ends siteNet "idx2"
      ([.get "idx2", .parse idx2Xml, .parseIndex idx2Xml, .get "dead"],
        .exited "error retrieving sitemap dead: connection refused") := ⟨2, by decide⟩
  have h3 := Ends_unique hend h2
  cases h3

/-- C1, amended. When `FetchAll` treats the payload at `url` as an index (the
flat decode yields no entry, the index decode yields `sitemaps`): if `FetchAll`
returns URLs on every reference, `FetchAll(url)` returns exactly their
concatenation, in order.  Otherwise let `s` be the first reference on which
`FetchAll` does not return URLs.  If `FetchAll(s)` returns an error,
`FetchAll(url)` returns that same error (and, as every error return of the
source, no URL).  If `FetchAll(s)` ends the process in `log.Fatalf`, as it does
on a transport failure at `s`, `FetchAll(url)` returns nothing: the process has
ended there, with the same message. -/
theorem FetchAll_index_concat (w : Net) (url : String) (data : Bytes)
    (sitemaps : List String)
    (hget : w.httpGet url = .ok (.ok data)) (hflat : w.unmarshalUrlset data = .ok [])
    (hidx : w.unmarshalIndex data = .ok sitemaps) :
    (∀ results : List (List String), List.Forall₂ (Returns w) sitemaps results →
        Returns w url results.flatten ∧
        ∀ r, Ends w url r → r.2 = .returned (.ok results.flatten)) ∧
    (∀ (pre post : List String) (s : String) (results : List (List String)) (err : GoError),
        sitemaps = pre ++ s :: post → List.Forall₂ (Returns w) pre results →
        Fails w s err →
        Fails w url err ∧ ∀ r, Ends w url r → r.2 = .returned (.error err)) ∧
    (∀ (pre post : List String) (s : String) (results : List (List String)) (msg : String),
        sitemaps = pre ++ s :: post → List.Forall₂ (Returns w) pre results →
        Exits w s msg →
        Exits w url msg ∧ ∀ r, Ends w url r → r.2 = .exited msg) ∧
    (∀ (pre post : List String) (s : String) (results : List (List String)),
        sitemaps = pre ++ s :: post → List.Forall₂ (Returns w) pre results →
        TransportFails w s →
        (∃ msg, Exits w url msg) ∧ ¬ (∃ err, Fails w url err) ∧
        ¬ (∃ urls, Returns w url urls)) := by
  refine ⟨?_, ?_, ?_, ?_⟩
  · intro results h
    obtain ⟨n, hn⟩ := common_fuel _ _ h
    obtain ⟨tr, ht⟩ := fetchLoop_ok _ _ hn []
    have hend : Ends w url ([.get url, .parse data, .parseIndex data] ++ tr,
        .returned (.ok results.flatten)) := by
      refine ⟨n + 1, ?_⟩
      rw [FetchAll_index hget hflat hidx, ht, Run.after_some]
      simp
    exact ⟨⟨_, hend⟩, fun r hr => by rw [Ends_unique hr hend]⟩
  · intro pre post s results err hsplit h hs
    obtain ⟨tr, hs⟩ := hs
    obtain ⟨tr2, hend⟩ := FetchAll_index_stop hget hflat (hsplit ▸ hidx) h hs
      (by intro urls hc; cases hc)
    exact ⟨⟨_, hend⟩, fun r hr => by rw [Ends_unique hr hend]⟩
  · intro pre post s results msg hsplit h hs
    obtain ⟨tr, hs⟩ := hs
    obtain ⟨tr2, hend⟩ := FetchAll_index_stop hget hflat (hsplit ▸ hidx) h hs
      (by intro urls hc; cases hc)
    exact ⟨⟨_, hend⟩, fun r hr => by rw [Ends_unique hr hend]⟩
  · intro pre post s results hsplit h hs
    have hex : ∃ msg, Ends w s ([.get s], .exited msg) := by
      rcases hs with ⟨e, he⟩ | ⟨e, he⟩
      · exact ⟨"error retrieving sitemap " ++ s ++ ": " ++ e, 1, by simp [FetchAll, he]⟩
      · exact ⟨"error reading content of sitemap " ++ s ++ ": " ++ e, 1,
          by simp [FetchAll, he]⟩
    obtain ⟨msg, hs2⟩ := hex
    obtain ⟨tr2, hend⟩ := FetchAll_index_stop hget hflat (hsplit ▸ hidx) h hs2
      (by intro urls hc; cases hc)
    refine ⟨⟨msg, tr2, hend⟩, ?_, ?_⟩
    · rintro ⟨err, tr3, h3⟩
      have h4 := Ends_unique h3 hend
      cases h4
    · rintro ⟨urls, tr3, h3⟩
      have h4 := Ends_unique h3 hend
      cases h4

/-- C1, amended, at the example networks: the index at `root` names one flat
sitemap and its URLs are returned; the index at `idx1` names `ok`, `bad`,
`dead`, and the decode error of `bad` is returned; the index at `idx2` names
`dead` first, and the process ends there. -/
theorem FetchAll_index_concat_witness :
    Returns exampleNet "root" ["/x", "/y"] ∧
    Fails siteNet "idx1" ("Parse failed to unmarshal sitemap data: " ++ unexpectedEOF) ∧
    Exits siteNet "idx2" "error retrieving sitemap dead: connection refused" :=
  ⟨((FetchAll_index_concat exampleNet "root" "I" ["s1"] (by decide) (by decide)
      (by decide)).1 [["/x", "/y"]]
      (List.Forall₂.cons ⟨[.get "s1", .parse "F"], 1, by decide⟩ List.Forall₂.nil)).1,
   ((FetchAll_index_concat siteNet "idx1" idx1Xml ["ok", "bad", "dead"] (by decide)
      (by decide) (by decide)).2.1 ["ok"] ["dead"] "bad" [["/x"]] _ rfl
      (List.Forall₂.cons ⟨[.get "ok", .parse okXml], 1, by decide⟩ List.Forall₂.nil)
      ⟨[.get "bad", .parse badXml], 1, by decide⟩).1,
   ((FetchAll_index_concat siteNet "idx2" idx2Xml ["dead", "bad"] (by decide)
      (by decide) (by decide)).2.2.1 [] ["bad"] "dead" [] _ rfl List.Forall₂.nil
      ⟨[.get "dead"], 1, by decide⟩).1⟩

/-- C2. When the flat decode of the payload at `url` yields at least one URL
entry, `FetchAll` returns exactly those entries, in order and with no error; the
only steps it takes are the fetch of `url` and the flat decode: the index decode
is not run and no other URL is fetched, whatever the index decode would give. -/
theorem FetchAll_flat_leaf (w : Net) (url : String) (data : Bytes) (urls : List String)
    (hget : w.httpGet url = .ok (.ok data)) (hflat : w.unmarshalUrlset data = .ok urls)
    (hlen : 1 ≤ urls.length) (fuel : Nat) :
    FetchAll w (fuel + 1) url = some ([.get url, .parse data], .returned (.ok urls)) := by
  have h : urls.length > 0 := hlen
  simp [FetchAll, hget, Parse, bytesNewReader, hflat, h]

/-- C2 at the example network: the payload at `mixed` has a URL entry and a
nested reference; the URL entry is returned and `s1` is not fetched. -/
theorem FetchAll_flat_leaf_witness :
    exampleNet.unmarshalIndex "M" = .ok ["s1"] ∧
    FetchAll exampleNet 3 "mixed" = some ([.get "mixed", .parse "M"], .returned (.ok ["/a"])) :=
  ⟨by decide, FetchAll_flat_leaf exampleNet "mixed" "M" ["/a"] (by decide) (by decide)
    (by decide) 2⟩

/-- C5. When the payload at `url` decodes as a flat sitemap with no entry, the
index decode is always run next (the payload is never returned as a leaf); and
when the index decode yields no reference either, `FetchAll` returns the empty
sequence with no error and fetches nothing else. -/
theorem FetchAll_empty_index (w : Net) (url : String) (data : Bytes)
    (hget : w.httpGet url = .ok (.ok data)) (hflat : w.unmarshalUrlset data = .ok []) :
    (w.unmarshalIndex data = .ok [] → ∀ fuel, FetchAll w (fuel + 1) url =
        some ([.get url, .parse data, .parseIndex data], .returned (.ok []))) ∧
    (∀ fuel tr o, FetchAll w fuel url = some (tr, o) →
        [Event.get url, .parse data, .parseIndex data] <+: tr) := by
  constructor
  · intro hidx fuel
    rw [FetchAll_index hget hflat hidx]
    simp [fetchLoop, Run.after]
  · intro fuel tr o h
    cases fuel with
    | zero => simp [FetchAll] at h
    | succ n =>
      cases hidx : w.unmarshalIndex data with
      | error e =>
        simp [FetchAll, hget, Parse, ParseIndex, bytesNewReader, hflat, hidx] at h
        rw [← h.1]
      | ok sitemaps =>
        rw [FetchAll_index hget hflat hidx] at h
        obtain ⟨tr2, _, h3⟩ := Run.after_eq_some h
        exact ⟨tr2, h3.symm⟩

/-- C5 at the example network: the payload at `empty` has no entry of either kind. -/
theorem FetchAll_empty_index_witness :
    FetchAll exampleNet 1 "empty" =
      some ([.get "empty", .parse "E", .parseIndex "E"], .returned (.ok [])) :=
  (FetchAll_empty_index exampleNet "empty" "E" (by decide) (by decide)).1 (by decide) 0

/-- C6. When the network serves a finite tree of sitemap documents at `url`
(every fetch and decode succeeds; a finite tree has no cycle), `FetchAll(url)`
returns: any fuel above the depth of the tree is enough, and the result is the
leaf URLs of the whole tree, left to right, depth first. -/
theorem FetchAll_tree (w : Net) (url : String) (t : SiteTree) (h : Serves w url t) :
    (∀ fuel, t.depth < fuel →
        ∃ tr, FetchAll w fuel url = some (tr, .returned (.ok t.leaves))) ∧
    Returns w url t.leaves ∧
    (∀ r, Ends w url r → r.2 = .returned (.ok t.leaves)) := by
  have h1 := fun fuel => FetchAll_serves w fuel t url h
  obtain ⟨tr, ht⟩ := h1 (t.depth + 1) (Nat.lt_succ_self _)
  have hend : Ends w url (tr, .returned (.ok t.leaves)) := ⟨_, ht⟩
  exact ⟨h1, ⟨tr, hend⟩, fun r hr => by rw [Ends_unique hr hend]⟩

/-- C6 at the example network: `root` serves an index over one flat sitemap, a
tree of depth 1, and two units of fuel resolve it. -/
theorem FetchAll_tree_witness :
    ∃ tr, FetchAll exampleNet 2 "root" = some (tr, .returned (.ok ["/x", "/y"])) :=
  (FetchAll_tree exampleNet "root" (.index [("s1", .leaf ["/x", "/y"])])
    ⟨"I", by decide, by decide, by decide, ⟨"F", by decide, by decide, by decide⟩,
      trivial⟩).1 2 (by decide)

/-- C7, as the claim states it, fails: the index at `root` names `s1`, the fetch
of `s1` meets a transport failure, and `FetchAll("root")` ends the process with
`log.Fatalf`; it returns no error value to its caller. -/
theorem nested_transport_failure_exits :
    deadLinkNet.httpGet "s1" = .error "connection refused" ∧
    FetchAll deadLinkNet 2 "root" =
      some ([.get "root", .parse "I", .parseIndex "I", .get "s1"],
        .exited "error retrieving sitemap s1: connection refused") ∧
    ¬ ∃ err, Fails deadLinkNet "root" err := by
  refine ⟨by decide, by decide, ?_⟩
  rintro ⟨err, tr, hend⟩
  have h2 : Ends deadLinkNet "root"
      ([.get "root", .parse "I", .parseIndex "I", .get "s1"],
        .exited "error retrieving sitemap s1: connection refused") := ⟨2, by decide⟩
  have h3 := Ends_unique hend h2
  cases h3

/-- C7, amended. A transport failure on any fetch `FetchAll` makes ends the
process with `log.Fatalf`: on the fetch of `url` itself (`http.Get` error or
body read error), and on a nested reference, whose exit is the exit of every
enclosing call.  A finished run ended in `log.Fatalf` exactly when one of the
URLs it fetched met a transport failure; so no transport failure is ever
returned as an error value. -/
theorem FetchAll_transport_failure_exits (w : Net) :
    (∀ url err fuel, w.httpGet url = .error err →
        FetchAll w (fuel + 1) url =
          some ([.get url], .exited ("error retrieving sitemap " ++ url ++ ": " ++ err))) ∧
    (∀ url err fuel, w.httpGet url = .ok (.error err) →
        FetchAll w (fuel + 1) url =
          some ([.get url],
            .exited ("error reading content of sitemap " ++ url ++ ": " ++ err))) ∧
    (∀ url data sitemaps pre s post results msg,
        w.httpGet url = .ok (.ok data) → w.unmarshalUrlset data = .ok [] →
        w.unmarshalIndex data = .ok sitemaps → sitemaps = pre ++ s :: post →
        List.Forall₂ (Returns w) pre results → Exits w s msg → Exits w url msg) ∧
    (∀ fuel url tr o, FetchAll w fuel url = some (tr, o) →
        ((∃ msg, o = .exited msg) ↔ ∃ u, u ∈ fetched tr ∧ TransportFails w u)) := by
  refine ⟨?_, ?_, ?_, ?_⟩
  · intro url err fuel h
    simp [FetchAll, h]
  · intro url err fuel h
    simp [FetchAll, h]
  · intro url data sitemaps pre s post results msg hget hflat hidx hsplit h hs
    obtain ⟨n, hn⟩ := common_fuel _ _ h
    obtain ⟨tr, m, hm⟩ := hs
    have hn2 := List.Forall₂.imp
      (fun s r (hx : ∃ tr, FetchAll w n s = some (tr, .returned (.ok r))) =>
        (⟨hx.choose, FetchAll_mono w (Nat.le_max_left n m) hx.choose_spec⟩ :
          ∃ tr, FetchAll w (max n m) s = some (tr, .returned (.ok r)))) hn
    have hm2 := FetchAll_mono w (Nat.le_max_right n m) hm
    obtain ⟨tr2, ht⟩ := fetchLoop_stop post hm2 (by intro urls hc; cases hc) _ _ hn2 []
    refine ⟨[.get url, .parse data, .parseIndex data] ++ tr2, max n m + 1, ?_⟩
    rw [FetchAll_index hget hflat hidx, hsplit, ht, Run.after_some]
  · intro fuel url tr o h
    exact FetchAll_fatal w fuel url (tr, o) h

/-- C7, amended, at the example network: an unreachable top-level URL ends the
process. -/
theorem FetchAll_transport_failure_exits_witness :
    FetchAll exampleNet 1 "gone" =
      some ([.get "gone"], .exited "error retrieving sitemap gone: no route") :=
  (FetchAll_transport_failure_exits exampleNet).1 "gone" "no route" 0 (by decide)

theorem collectOld_apply (m : LineSet) (old : List String) (x : String) :
    collectOld m old x = (m x || decide (x ∈ old)) := by
  induction old generalizing m with
  | nil => simp [collectOld]
  | cons t ts ih =>
    rw [collectOld, ih]
    by_cases h : x = t
    · simp [LineSet.setTrue, h]
    · simp [LineSet.setTrue, h]

theorem printNew_eq_filter (m : LineSet) (new : List String) :
    printNew m new = new.filter (fun t => m t == false) := by
  induction new with
  | nil => rfl
  | cons t ts ih =>
    rw [printNew, ih]
    by_cases h : m t = false
    · simp [h, List.filter_cons]
    · simp [h, List.filter_cons]

theorem Diff_eq_filter (old new : List String) :
    Diff old new = new.filter (fun l => decide (l ∉ old)) := by
  rw [Diff, printNew_eq_filter]
  congr 1
  funext t
  simp [collectOld_apply, LineSet.empty]

theorem main_diff_eq (w : World) (fuel : Nat) (prog oldp newp : String) (oldf newf : File)
    (hold : w.osOpen oldp = .ok oldf) (hnew : w.osOpen newp = .ok newf) :
    main w fuel [prog, "diff", oldp, newp] =
      some ⟨Diff (scanLines oldf) (scanLines newf), none⟩ := by
  simp [main, hold, hnew, Diff]

theorem scanFrom_line (maxTok : Nat) (rest : List Char) :
    ∀ (l cur : List Char), '\n' ∉ l → cur.length + l.length < maxTok →
      scanFrom maxTok (l ++ '\n' :: rest) cur =
        (String.mk (dropCR (cur ++ l)) :: (scanFrom maxTok rest []).1,
          (scanFrom maxTok rest []).2) := by
  intro l
  induction l with
  | nil => intro cur _ _; simp [scanFrom]
  | cons c cs ih =>
    intro cur hnl hlen
    have hc : c ≠ '\n' := fun h => hnl (by simp [h])
    have hcs : '\n' ∉ cs := fun h => hnl (List.mem_cons_of_mem _ h)
    simp only [List.length_cons] at hlen
    have h1 : ¬ maxTok ≤ cur.length + 1 := by omega
    rw [List.cons_append, scanFrom]
    simp only [hc, h1, ite_false]
    rw [ih (cur ++ [c]) hcs (by simp; omega)]
    simp

theorem scanFrom_long (maxTok : Nat) (rest : List Char) :
    ∀ (l cur : List Char), '\n' ∉ l → cur.length < maxTok → maxTok ≤ cur.length + l.length →
      scanFrom maxTok (l ++ rest) cur = ([], true) := by
  intro l
  induction l with
  | nil => intro cur _ h1 h2; simp at h2; omega
  | cons c cs ih =>
    intro cur hnl h1 h2
    have hc : c ≠ '\n' := fun h => hnl (by simp [h])
    have hcs : '\n' ∉ cs := fun h => hnl (List.mem_cons_of_mem _ h)
    simp only [List.length_cons] at h2
    rw [List.cons_append, scanFrom]
    by_cases h3 : maxTok ≤ cur.length + 1
    · simp [hc, h3]
    · simp only [hc, h3, ite_false]
      exact ih (cur ++ [c]) hcs (by simp; omega) (by simp; omega)

theorem scanFrom_unlines_long (ls : List String) (long rest : List Char)
    (h : ∀ l ∈ ls, Scannable l) (hnl : '\n' ∉ long)
    (hlong : maxScanTokenSize ≤ long.length) :
    scanFrom maxScanTokenSize (unlines ls ++ (long ++ rest)) [] = (ls.map lineToken, true) := by
  induction ls with
  | nil =>
    simp only [unlines, List.nil_append, List.map_nil]
    exact scanFrom_long _ rest long [] hnl (by decide) (by simpa using hlong)
  | cons l ls ih =>
    have hl := h l (List.mem_cons_self _ _)
    rw [unlines, List.append_assoc, List.cons_append,
      scanFrom_line _ _ _ _ hl.1 (by simpa using hl.2),
      ih (fun x hx => h x (List.mem_cons_of_mem _ hx))]
    simp [lineToken]

theorem splitFrom_head_length :
    ∀ (data cur : List Char), cur ≠ [] → ∃ l, l ∈ splitFrom data cur ∧ cur.length ≤ l.length := by
  intro data
  induction data with
  | nil =>
    intro cur h
    exact ⟨String.mk cur, by simp [splitFrom, h], by simp⟩
  | cons c cs ih =>
    intro cur h
    by_cases hc : c = '\n'
    · exact ⟨String.mk cur, by simp [splitFrom, hc], by simp⟩
    · obtain ⟨l, hl, hlen⟩ := ih (cur ++ [c]) (by simp)
      refine ⟨l, by simp [splitFrom, hc, hl], ?_⟩
      simp only [List.length_append, List.length_singleton] at hlen
      omega

theorem scanFrom_short (maxTok : Nat) :
    ∀ (data cur : List Char), (∀ l ∈ splitFrom data cur, l.length < maxTok) →
      scanFrom maxTok data cur = ((splitFrom data cur).map lineToken, false) := by
  intro data
  induction data with
  | nil =>
    intro cur _
    by_cases h : cur = []
    · simp [scanFrom, splitFrom, h]
    · simp [scanFrom, splitFrom, h, lineToken]
  | cons c cs ih =>
    intro cur h
    by_cases hc : c = '\n'
    · have h2 : ∀ l ∈ splitFrom cs [], l.length < maxTok := by
        intro l hl
        exact h l (by simp [splitFrom, hc, hl])
      simp [scanFrom, splitFrom, hc, ih [] h2, lineToken]
    · have h2 : ∀ l ∈ splitFrom cs (cur ++ [c]), l.length < maxTok := by
        intro l hl
        exact h l (by simp [splitFrom, hc, hl])
      obtain ⟨l, hl, hlen⟩ := splitFrom_head_length cs (cur ++ [c]) (by simp)
      have h3 := h2 l hl
      simp only [List.length_append, List.length_singleton] at hlen
      have h4 : ¬ maxTok ≤ cur.length + 1 := by omega
      simp [scanFrom, splitFrom, hc, h4, ih (cur ++ [c]) h2]

theorem scanFrom_prefix (maxTok : Nat) :
    ∀ (data cur : List Char),
      (scanFrom maxTok data cur).1 <+: (splitFrom data cur).map lineToken := by
  intro data
  induction data with
  | nil =>
    intro cur
    by_cases h : cur = []
    · simp [scanFrom, splitFrom, h]
    · simp [scanFrom, splitFrom, h, lineToken]
  | cons c cs ih =>
    intro cur
    by_cases hc : c = '\n'
    · simp only [scanFrom, splitFrom, hc, ite_true, List.map_cons, lineToken]
      exact (List.prefix_cons_inj _).2 (ih [])
    · by_cases h4 : maxTok ≤ cur.length + 1
      · simp [scanFrom, hc, h4]
      · simp only [scanFrom, splitFrom, hc, h4, ite_false]
        exact ih (cur ++ [c])

theorem scanLines_short (f : File) (h : ShortLines f) :
    scanLines f = (textLines f.data).map lineToken := by
  simp [scanLines, textLines, scanFrom_short maxScanTokenSize f.data.data [] h]

/-! ## Claims about the diff command -/

/-- C3. For all line sequences `old` and `new`, the diff is `new` with exactly
the lines that occur in `old` removed: it is a subsequence of `new` (order
kept), it holds no line of `old`, and a line absent from `old` occurs in it as
often as in `new`; the command prints this diff of the lines scanned from its
two files.  In particular the diff of `["a"]` and `["b","b"]` is `["b","b"]`. -/
theorem Diff_keeps_new_not_in_old (old new : List String) :
    Diff old new = new.filter (fun l => decide (l ∉ old)) ∧
    (Diff old new).Sublist new ∧
    (∀ l, l ∈ old → l ∉ Diff old new) ∧
    (∀ l, l ∉ old → (Diff old new).count l = new.count l) ∧
    (∀ (w : World) (fuel : Nat) (prog oldp newp : String) (oldf newf : File),
        w.osOpen oldp = .ok oldf → w.osOpen newp = .ok newf →
        scanLines oldf = old → scanLines newf = new →
        main w fuel [prog, "diff", oldp, newp] =
          some ⟨new.filter (fun l => decide (l ∉ old)), none⟩) ∧
    Diff ["a"] ["b", "b"] = ["b", "b"] := by
  have h := Diff_eq_filter old new
  refine ⟨h, ?_, ?_, ?_, ?_, by decide⟩
  · rw [h]; exact List.filter_sublist _
  · intro l hl hmem
    rw [h, List.mem_filter] at hmem
    simp [hl] at hmem
  · intro l hl
    rw [h, List.count_filter]
    simpa using hl
  · intro w fuel prog oldp newp oldf newf hold hnew ho hn
    rw [main_diff_eq w fuel prog oldp newp oldf newf hold hnew, ho, hn, h]

/-- C3 on files: with `/a`, `/b` in the old file and `/a`, `/b`, `/c` in the new
one, the command prints `/c`. -/
theorem Diff_keeps_new_not_in_old_witness :
    main ⟨exampleNet, fun p => if p = "old.txt" then .ok ⟨"/a\n/b\n", none⟩
        else .ok ⟨"/a\n/b\n/c\n", none⟩⟩ 0 ["sitediff", "diff", "old.txt", "new.txt"] =
      some ⟨["/c"], none⟩ :=
  (Diff_keeps_new_not_in_old ["/a", "/b"] ["/a", "/b", "/c"]).2.2.2.2.1 _ 0 "sitediff"
    "old.txt" "new.txt" ⟨"/a\n/b\n", none⟩ ⟨"/a\n/b\n/c\n", none⟩ (by decide) (by decide)
    (by decide) (by decide)

/-- C4. The diff depends on `old` only through the set of its lines: two old
sequences with the same lines, whatever their order and repetitions, give the
same diff against every `new`; in particular the diff of `["a","a"]` and
`["a","b"]` is `["b"]`. -/
theorem Diff_old_as_set (old1 old2 new : List String)
    (h : ∀ l, l ∈ old1 ↔ l ∈ old2) :
    Diff old1 new = Diff old2 new ∧ Diff ["a", "a"] ["a", "b"] = ["b"] := by
  refine ⟨?_, by decide⟩
  rw [Diff_eq_filter, Diff_eq_filter]
  congr 1
  funext l
  simp [h l]

/-- C4 at old sequences `["a","a","c"]` and `["c","a"]`. -/
theorem Diff_old_as_set_witness :
    Diff ["a", "a", "c"] ["a", "b", "c"] = Diff ["c", "a"] ["a", "b", "c"] :=
  (Diff_old_as_set ["a", "a", "c"] ["c", "a"] ["a", "b", "c"] (by
    intro l
    simp only [List.mem_cons, List.mem_singleton, List.not_mem_nil, or_false]
    tauto)).1

/-- C8, as the claim states it, fails: reading `old.txt` breaks off with a read
error after its first line, the scanner holds that error, and the command still
prints a diff, computed from the one line it read, and ends without a fatal
error. -/
theorem read_error_still_prints_diff :
    truncatedOldWorld.osOpen "old.txt" =
      .ok ⟨"/a\n", some "read old.txt: input/output error"⟩ ∧
    scanErr ⟨"/a\n", some "read old.txt: input/output error"⟩ =
      some "read old.txt: input/output error" ∧
    main truncatedOldWorld 0 ["sitediff", "diff", "old.txt", "new.txt"] =
      some ⟨["/b"], none⟩ := by
  refine ⟨by decide, by decide, by decide⟩

/-- C8, amended. When opening the old or the new file fails, the command ends
with a fatal error and prints no diff line.  Once both files are open it never
ends with a fatal error: a read error met while scanning is not looked at, and
the diff of the lines scanned up to there is printed. -/
theorem main_diff_open_failure_fatal (w : World) (fuel : Nat) (prog oldp newp : String) :
    (∀ err, w.osOpen oldp = .error err →
        main w fuel [prog, "diff", oldp, newp] =
          some ⟨[], some ("error opening old: " ++ err)⟩) ∧
    (∀ oldf err, w.osOpen oldp = .ok oldf → w.osOpen newp = .error err →
        main w fuel [prog, "diff", oldp, newp] =
          some ⟨[], some ("error opening old: " ++ err)⟩) ∧
    (∀ oldf newf, w.osOpen oldp = .ok oldf → w.osOpen newp = .ok newf →
        main w fuel [prog, "diff", oldp, newp] =
          some ⟨Diff (scanLines oldf) (scanLines newf), none⟩) := by
  refine ⟨?_, ?_, ?_⟩
  · intro err h
    simp [main, h]
  · intro oldf err h1 h2
    simp [main, h1, h2]
  · intro oldf newf h1 h2
    exact main_diff_eq w fuel prog oldp newp oldf newf h1 h2

/-- C8, amended, on a machine without `missing.txt`: the command ends with a
fatal error and prints nothing. -/
theorem main_diff_open_failure_fatal_witness :
    main truncatedOldWorld 0 ["sitediff", "diff", "old.txt", "missing.txt"] =
      some ⟨[], some "error opening old: open missing.txt: no such file or directory"⟩ :=
  (main_diff_open_failure_fatal truncatedOldWorld 0 "sitediff" "old.txt" "missing.txt").2.1
    ⟨"/a\n", some "read old.txt: input/output error"⟩
    "open missing.txt: no such file or directory" (by decide) (by decide)

/-- C10, as the claim states it, fails: the first line of `new.txt` is `/a`
followed by a carriage return, no line of `old.txt` has that text, and the line
is not printed; the lines differing by case or by a trailing blank are. -/
theorem trailing_cr_line_is_suppressed :
    crlfWorld.osOpen "old.txt" = .ok ⟨"/a\n", none⟩ ∧
    crlfWorld.osOpen "new.txt" = .ok ⟨"/a\r\n/A\n/a \n", none⟩ ∧
    main crlfWorld 0 ["sitediff", "diff", "old.txt", "new.txt"] =
      some ⟨["/A", "/a "], none⟩ := by
  refine ⟨by decide, by decide, by decide⟩

/-- C10, amended. The command compares the tokens of the line scanner by exact
string equality and does no trimming or folding of its own: for all contents of
the two files, a token of the new file is printed exactly when the old file has
no identical token, in order.  When every newline-delimited line of a file is
shorter than 65536 bytes its tokens are its lines, each with one trailing
carriage return dropped and otherwise unchanged, so a line of the new file is
then suppressed exactly when this token equals the token of a line of the old
file.  In every case the tokens are an initial part of those of the lines: a
line of 65536 bytes or more stops the scanner, which delivers the tokens of the
lines before it and nothing of that line or after it. -/
theorem main_diff_compares_tokens (w : World) (fuel : Nat) (prog oldp newp : String)
    (oldf newf : File)
    (hold : w.osOpen oldp = .ok oldf) (hnew : w.osOpen newp = .ok newf) :
    main w fuel [prog, "diff", oldp, newp] =
      some ⟨(scanLines newf).filter (fun t => decide (t ∉ scanLines oldf)), none⟩ ∧
    (ShortLines oldf → ShortLines newf →
      main w fuel [prog, "diff", oldp, newp] =
        some ⟨((textLines newf.data).map lineToken).filter
          (fun t => decide (t ∉ (textLines oldf.data).map lineToken)), none⟩) ∧
    (∀ f : File, ShortLines f → scanLines f = (textLines f.data).map lineToken) ∧
    (∀ f : File, scanLines f <+: (textLines f.data).map lineToken) ∧
    (∀ (ls : List String) (long rest : List Char) (e : Option GoError),
      (∀ l ∈ ls, Scannable l) → '\n' ∉ long → maxScanTokenSize ≤ long.length →
      scanLines ⟨String.mk (unlines ls ++ (long ++ rest)), e⟩ = ls.map lineToken ∧
      scanErr ⟨String.mk (unlines ls ++ (long ++ rest)), e⟩ =
        some "bufio.Scanner: token too long") ∧
    (∀ l : String, l.data.getLast? ≠ some '\r' → lineToken l = l) ∧
    (∀ l : String, lineToken (String.mk (l.data ++ ['\r'])) = l) := by
  have hmain := main_diff_eq w fuel prog oldp newp oldf newf hold hnew
  refine ⟨?_, ?_, scanLines_short, ?_, ?_, ?_, ?_⟩
  · rw [hmain, Diff_eq_filter]
  · intro ho hn
    rw [hmain, Diff_eq_filter, scanLines_short oldf ho, scanLines_short newf hn]
  · intro f
    exact scanFrom_prefix maxScanTokenSize f.data.data []
  · intro ls long rest e h hnl hlong
    simp [scanLines, scanErr, scanFrom_unlines_long ls long rest h hnl hlong]
  · intro l h
    simp [lineToken, dropCR, h]
  · intro l
    simp [lineToken, dropCR]

/-- C10, amended, on the files of the counterexample: the lines of `new.txt` are
`/a` with a carriage return, `/A` and `/a` with a blank; the first has the token
of the old line `/a` and is suppressed, the other two are printed. -/
theorem main_diff_compares_tokens_witness :
    textLines "/a\r\n/A\n/a \n" = ["/a\r", "/A", "/a "] ∧
    main crlfWorld 0 ["sitediff", "diff", "old.txt", "new.txt"] =
      some ⟨(["/a\r", "/A", "/a "].map lineToken).filter
        (fun t => decide (t ∉ ["/a"].map lineToken)), none⟩ :=
  ⟨by decide,
   (main_diff_compares_tokens crlfWorld 0 "sitediff" "old.txt" "new.txt" ⟨"/a\n", none⟩
    ⟨"/a\r\n/A\n/a \n", none⟩ (by decide) (by decide)).2.1 (by decide) (by decide)⟩

end Sitediff
